import Mathlib

/-!
Verification of the nue repository's edit-plan synthesis pipeline
(`src/brain/analyze.py`) and trend knowledge-base builder
(`src/trend_watcher/main.py`).

The Python code is shallowly embedded: dictionaries become structures
(fields the code never touches are carried in a `rest` payload),
Python string comparison becomes an explicit lexicographic comparison
on the underlying character lists, side effects that can fail
(SQLite access, downloads, file existence, randomness) become explicit
parameters or outcome records, and exception propagation becomes
`Except` / a raised-flag in the result.
-/

/-! ## Python string comparison

Python compares `str` values lexicographically by code point, a strict
prefix comparing less than the longer string.  `charsLe` / `charsLt`
implement exactly that on the character lists of Lean strings. -/

def charsLe : List Char → List Char → Bool
  | [], _ => true
  | _ :: _, [] => false
  | a :: as, b :: bs => if a < b then true else if b < a then false else charsLe as bs

def charsLt : List Char → List Char → Bool
  | [], [] => false
  | [], _ :: _ => true
  | _ :: _, [] => false
  | a :: as, b :: bs => if a < b then true else if b < a then false else charsLt as bs

/-- Python `a <= b` on strings. -/
def strLe (a b : String) : Bool := charsLe a.data b.data

/-- `prefOf n h` : the list `n` is an initial segment of `h`
(Python `h.startswith(n)` on the character level). -/
def prefOf : List Char → List Char → Bool
  | [], _ => true
  | _ :: _, [] => false
  | a :: as, b :: bs => a == b && prefOf as bs

/-- `subOf n h` : the list `n` occurs contiguously inside `h`
(Python `n in h` for strings, on the character level). -/
def subOf (needle : List Char) : List Char → Bool
  | [] => prefOf needle []
  | b :: bs => prefOf needle (b :: bs) || subOf needle bs

/-- Python `needle in hay` for strings. -/
def subStr (needle hay : String) : Bool := subOf needle.data hay.data

/-! ## Data model of the edit plan (`analyze.py`)

A `Cut` is one entry of the analysis output's `cuts` list.  The merge
step reads `start_time` and `end_time` and writes `caption` and
`caption_style["color"]`; every other key is carried opaquely in
`rest`. -/

structure CapStyle where
  color : Option String
  rest : List (String × String)
deriving DecidableEq, Repr

structure Cut where
  start_time : String
  end_time : String
  caption : Option String
  caption_style : Option CapStyle
  rest : List (String × String)
deriving DecidableEq, Repr

structure VisualEffect where
  start : String
  «end» : String
  type : String
  speed : String
deriving DecidableEq, Repr

structure EditPlan where
  cuts : List Cut
  visual_effects : Option (List VisualEffect)
  rest : List (String × String)
deriving DecidableEq, Repr

structure ManualCut where
  action : String
  start : String
  «end» : String
deriving DecidableEq, Repr

structure ManualCaption where
  timestamp : String
  text : String
  style : String
deriving DecidableEq, Repr

structure ManualEffect where
  timestamp : String
  type : String
deriving DecidableEq, Repr

structure ManualInstructions where
  cuts : List ManualCut
  captions : List ManualCaption
  effects : List ManualEffect
deriving DecidableEq, Repr

/-! ## `merge_instructions` (analyze.py lines 333-377) -/

/-- The removal test of analyze.py line 350:
`cut["start_time"] >= manual_cut["start"] and cut["end_time"] <= manual_cut["end"]`. -/
def inRemovalRange (mc : ManualCut) (cut : Cut) : Bool :=
  strLe mc.start cut.start_time && strLe cut.end_time mc.«end»

/-- One pass of the list comprehension of analyze.py lines 348-351. -/
def removeContained (mc : ManualCut) (cuts : List Cut) : List Cut :=
  cuts.filter (fun cut => !(inRemovalRange mc cut))

/-- The loop of analyze.py lines 345-351. -/
def applyRemovals (mcs : List ManualCut) (cuts : List Cut) : List Cut :=
  mcs.foldl (fun acc mc => if mc.action = "remove" then removeContained mc acc else acc) cuts

/-- The caption-injection test of analyze.py line 358:
`cut["start_time"] <= manual_cap["timestamp"] <= cut["end_time"]`. -/
def cutContainsTs (cut : Cut) (ts : String) : Bool :=
  strLe cut.start_time ts && strLe ts cut.end_time

/-- analyze.py lines 360-362: ensure `caption_style` exists, then
overwrite its `color`. -/
def injectColor (style : String) (cs : Option CapStyle) : CapStyle :=
  match cs with
  | some c => { c with color := some style }
  | none => { color := some style, rest := [] }

/-- analyze.py lines 359-362: the rewrite applied to the matched cut:
caption text and caption-style color are overwritten, all other fields
are untouched. -/
def captionedCut (mc : ManualCaption) (cut : Cut) : Cut :=
  { cut with
    caption := some mc.text
    caption_style := some (injectColor mc.style cut.caption_style) }

/-- The inner loop of analyze.py lines 357-363: rewrite the first cut
containing the timestamp, leave the tail untouched (`break`). -/
def applyCaption (mc : ManualCaption) : List Cut → List Cut
  | [] => []
  | cut :: cuts =>
    if cutContainsTs cut mc.timestamp then captionedCut mc cut :: cuts
    else cut :: applyCaption mc cuts

/-- The loop of analyze.py lines 355-363. -/
def applyCaptions (mcs : List ManualCaption) (cuts : List Cut) : List Cut :=
  mcs.foldl (fun acc mc => applyCaption mc acc) cuts

/-- analyze.py lines 370-375: a manual effect becomes an instant
visual effect with fixed speed "fast". -/
def manualFx (me : ManualEffect) : VisualEffect :=
  { start := me.timestamp, «end» := me.timestamp, type := me.type, speed := "fast" }

/-- `merge_instructions` of analyze.py lines 333-377.  The Python
guards `if manual_cuts:` / `if manual_captions:` / `if manual_effects:`
are kept: in particular the `visual_effects` key is only created when
there is at least one manual effect. -/
def merge_instructions (ai : EditPlan) (mi : ManualInstructions) : EditPlan :=
  let cuts1 := if mi.cuts.isEmpty then ai.cuts else applyRemovals mi.cuts ai.cuts
  let cuts2 := if mi.captions.isEmpty then cuts1 else applyCaptions mi.captions cuts1
  let ve := if mi.effects.isEmpty then ai.visual_effects
            else some ((ai.visual_effects.getD []) ++ mi.effects.map manualFx)
  { ai with cuts := cuts2, visual_effects := ve }

/-! ## Lemmas about the merge -/

theorem applyRemovals_nil (cuts : List Cut) : applyRemovals [] cuts = cuts := rfl

theorem applyRemovals_eq_filter (mcs : List ManualCut)
    (h : ∀ mc ∈ mcs, mc.action = "remove") (cuts : List Cut) :
    applyRemovals mcs cuts
      = cuts.filter (fun cut => !(mcs.any (fun mc => inRemovalRange mc cut))) := by
  induction mcs generalizing cuts with
  | nil => simp [applyRemovals]
  | cons mc mcs ih =>
    have hmc : mc.action = "remove" := h mc (by simp)
    have hrest : ∀ m ∈ mcs, m.action = "remove" := fun m hm => h m (by simp [hm])
    show applyRemovals (mc :: mcs) cuts = _
    rw [show applyRemovals (mc :: mcs) cuts
          = applyRemovals mcs (removeContained mc cuts) by
        simp [applyRemovals, hmc]]
    rw [ih hrest, removeContained, List.filter_filter]
    congr 1
    funext cut
    simp [List.any_cons, Bool.and_comm]

theorem mem_of_mem_removeContained {mc : ManualCut} {cuts : List Cut} {c : Cut}
    (h : c ∈ removeContained mc cuts) : c ∈ cuts :=
  List.mem_of_mem_filter h

theorem mem_of_mem_applyRemovals {mcs : List ManualCut} {cuts : List Cut} {c : Cut}
    (h : c ∈ applyRemovals mcs cuts) : c ∈ cuts := by
  induction mcs generalizing cuts with
  | nil => exact h
  | cons mc mcs ih =>
    have h' : c ∈ (if mc.action = "remove" then removeContained mc cuts else cuts) :=
      ih (by exact h)
    by_cases hact : mc.action = "remove"
    · exact mem_of_mem_removeContained (by simpa [hact] using h')
    · simpa [hact] using h'

theorem endpoints_of_mem_applyCaption {mc : ManualCaption} {cuts : List Cut} {c : Cut}
    (h : c ∈ applyCaption mc cuts) :
    ∃ c0 ∈ cuts, c.start_time = c0.start_time ∧ c.end_time = c0.end_time := by
  induction cuts with
  | nil => simp [applyCaption] at h
  | cons cut rest ih =>
    by_cases hc : cutContainsTs cut mc.timestamp
    · simp [applyCaption, hc] at h
      rcases h with h | h
      · exact ⟨cut, by simp, by simp [h, captionedCut]⟩
      · exact ⟨c, by simp [h], rfl, rfl⟩
    · simp [applyCaption, hc] at h
      rcases h with h | h
      · exact ⟨cut, by simp, by simp [h]⟩
      · rcases ih h with ⟨c0, hc0, he⟩
        exact ⟨c0, by simp [hc0], he⟩

theorem endpoints_of_mem_applyCaptions {mcs : List ManualCaption} {cuts : List Cut} {c : Cut}
    (h : c ∈ applyCaptions mcs cuts) :
    ∃ c0 ∈ cuts, c.start_time = c0.start_time ∧ c.end_time = c0.end_time := by
  induction mcs generalizing cuts with
  | nil => exact ⟨c, h, rfl, rfl⟩
  | cons mc mcs ih =>
    have h' : c ∈ applyCaptions mcs (applyCaption mc cuts) := h
    rcases ih h' with ⟨c1, hc1, hs1, he1⟩
    rcases endpoints_of_mem_applyCaption hc1 with ⟨c0, hc0, hs0, he0⟩
    exact ⟨c0, hc0, hs1.trans hs0, he1.trans he0⟩

/-! ## Claims C1, C2, C7 about the merge -/

/-- C1: for every edit plan and every list of removal instructions with
action "remove", `merge_instructions` drops a machine-generated Cut iff
the Cut's interval is fully contained in some removal range
(`cut.start >= range.start` and `cut.end <= range.end` in the code's
string order); every other Cut is kept completely unmodified, and the
rest of the plan is untouched. -/
theorem C1_merge_removal_containment (ai : EditPlan) (mcs : List ManualCut)
    (h : ∀ mc ∈ mcs, mc.action = "remove") :
    (merge_instructions ai { cuts := mcs, captions := [], effects := [] }).cuts
      = ai.cuts.filter (fun cut => !(mcs.any (fun mc => inRemovalRange mc cut)))
    ∧ (∀ cut, cut ∈ (merge_instructions ai { cuts := mcs, captions := [], effects := [] }).cuts
        ↔ cut ∈ ai.cuts ∧ ¬ ∃ mc ∈ mcs, inRemovalRange mc cut = true)
    ∧ (merge_instructions ai { cuts := mcs, captions := [], effects := [] }).visual_effects
        = ai.visual_effects
    ∧ (merge_instructions ai { cuts := mcs, captions := [], effects := [] }).rest = ai.rest := by
  have hcuts : (merge_instructions ai { cuts := mcs, captions := [], effects := [] }).cuts
      = applyRemovals mcs ai.cuts := by
    cases mcs <;> rfl
  refine ⟨?_, ?_, by cases mcs <;> rfl, by cases mcs <;> rfl⟩
  · rw [hcuts]; exact applyRemovals_eq_filter mcs h ai.cuts
  · intro cut
    rw [hcuts, applyRemovals_eq_filter mcs h ai.cuts]
    simp [List.mem_filter, List.any_eq_true]

def exC1_cut1 : Cut :=
  { start_time := "00:00:12", end_time := "00:00:18", caption := none,
    caption_style := none, rest := [] }

def exC1_cut2 : Cut :=
  { start_time := "00:00:25", end_time := "00:00:30", caption := some "Nice",
    caption_style := none, rest := [] }

def exC1_plan : EditPlan :=
  { cuts := [exC1_cut1, exC1_cut2], visual_effects := none, rest := [] }

def exC1_mc : ManualCut := { action := "remove", start := "00:00:10", «end» := "00:00:20" }

/-- Witness for C1 at the spec's Scenario B: a removal range
00:00:10-00:00:20 and a cut 00:00:12-00:00:18. -/
theorem C1_merge_removal_containment_witness :
    (merge_instructions exC1_plan { cuts := [exC1_mc], captions := [], effects := [] }).cuts
      = exC1_plan.cuts.filter (fun cut => !([exC1_mc].any (fun mc => inRemovalRange mc cut))) :=
  (C1_merge_removal_containment exC1_plan [exC1_mc] (by decide)).1

/-- C2: each caption-injection instruction rewrites at most one cut:
the first remaining cut (insertion order) whose interval contains the
timestamp gets its caption text and caption-style color overwritten;
if no remaining cut contains the timestamp the instruction is a no-op.
The first conjunct ties `merge_instructions` to the per-instruction
step `applyCaption` applied to the cuts remaining after removal. -/
theorem C2_merge_caption_first_match (ai : EditPlan) (mcs : List ManualCut)
    (caps : List ManualCaption) (mc : ManualCaption) :
    ((merge_instructions ai { cuts := mcs, captions := caps, effects := [] }).cuts
        = applyCaptions caps (applyRemovals mcs ai.cuts))
    ∧ (∀ cuts : List Cut, (∀ cut ∈ cuts, cutContainsTs cut mc.timestamp = false) →
        applyCaption mc cuts = cuts)
    ∧ (∀ (pre : List Cut) (cut : Cut) (post : List Cut),
        (∀ c ∈ pre, cutContainsTs c mc.timestamp = false) →
        cutContainsTs cut mc.timestamp = true →
        applyCaption mc (pre ++ cut :: post)
          = pre ++ captionedCut mc cut :: post) := by
  refine ⟨by cases mcs <;> cases caps <;> rfl, ?_, ?_⟩
  · intro cuts hnone
    induction cuts with
    | nil => rfl
    | cons cut rest ih =>
      have h0 : cutContainsTs cut mc.timestamp = false := hnone cut (by simp)
      have hrest : ∀ c ∈ rest, cutContainsTs c mc.timestamp = false :=
        fun c hc => hnone c (by simp [hc])
      simp [applyCaption, h0, ih hrest]
  · intro pre cut post hpre hcut
    induction pre with
    | nil => simp [applyCaption, hcut]
    | cons p pre ih =>
      have h0 : cutContainsTs p mc.timestamp = false := hpre p (by simp)
      have hpre' : ∀ c ∈ pre, cutContainsTs c mc.timestamp = false :=
        fun c hc => hpre c (by simp [hc])
      simp [applyCaption, h0, ih hpre']

def exC2_c1 : Cut :=
  { start_time := "00:00:00", end_time := "00:00:05", caption := none,
    caption_style := none, rest := [] }

def exC2_c2 : Cut :=
  { start_time := "00:00:06", end_time := "00:00:12", caption := some "old",
    caption_style := some { color := some "white", rest := [("font", "sans")] }, rest := [] }

def exC2_cap : ManualCaption := { timestamp := "00:00:08", text := "WOW", style := "yellow" }

/-- Witness for C2: the second of two cuts contains the timestamp, so
exactly that cut is rewritten and every other cut is untouched. -/
theorem C2_merge_caption_first_match_witness :
    applyCaption exC2_cap ([exC2_c1] ++ exC2_c2 :: [])
      = [exC2_c1] ++ captionedCut exC2_cap exC2_c2 :: [] :=
  (C2_merge_caption_first_match exC1_plan [] [] exC2_cap).2.2 [exC2_c1] exC2_c2 []
    (by decide) (by decide)

/-- C7: the merge never violates the EditPlan invariant `end >= start`:
if every input cut satisfies it (in the code's string order) then every
merged cut still does; moreover every merged visual effect is either an
original one or a zero-duration appended one. -/
theorem C7_merge_preserves_cut_invariant (ai : EditPlan) (mi : ManualInstructions)
    (h : ∀ c ∈ ai.cuts, strLe c.start_time c.end_time = true) :
    (∀ c ∈ (merge_instructions ai mi).cuts, strLe c.start_time c.end_time = true)
    ∧ (∀ fx ∈ ((merge_instructions ai mi).visual_effects.getD []),
        fx ∈ ai.visual_effects.getD [] ∨ fx.start = fx.«end») := by
  constructor
  · intro c hc
    have hc2 : c ∈ (if mi.captions.isEmpty then
          (if mi.cuts.isEmpty then ai.cuts else applyRemovals mi.cuts ai.cuts)
        else applyCaptions mi.captions
          (if mi.cuts.isEmpty then ai.cuts else applyRemovals mi.cuts ai.cuts)) := hc
    have step1 : ∀ c1 : Cut,
        c1 ∈ (if mi.cuts.isEmpty then ai.cuts else applyRemovals mi.cuts ai.cuts) →
        c1 ∈ ai.cuts := by
      intro c1 h1
      by_cases hm : mi.cuts.isEmpty
      · simpa [hm] using h1
      · exact mem_of_mem_applyRemovals (by simpa [hm] using h1)
    by_cases hcap : mi.captions.isEmpty
    · exact h c (step1 c (by simpa [hcap] using hc2))
    · have hc3 : c ∈ applyCaptions mi.captions
          (if mi.cuts.isEmpty then ai.cuts else applyRemovals mi.cuts ai.cuts) := by
        simpa [hcap] using hc2
      rcases endpoints_of_mem_applyCaptions hc3 with ⟨c0, hc0, hs, he⟩
      rw [hs, he]
      exact h c0 (step1 c0 hc0)
  · intro fx hfx
    by_cases heff : mi.effects.isEmpty
    · left; simpa [merge_instructions, heff] using hfx
    · have hfx' : fx ∈ (ai.visual_effects.getD []) ++ mi.effects.map manualFx := by
        simpa [merge_instructions, heff] using hfx
      rcases List.mem_append.mp hfx' with h1 | h1
      · exact Or.inl h1
      · rcases List.mem_map.mp h1 with ⟨me, _, hme⟩
        exact Or.inr (by rw [← hme]; rfl)

def exC7_plan : EditPlan :=
  { cuts := [exC1_cut1, exC1_cut2], visual_effects := some [], rest := [] }

def exC7_mi : ManualInstructions :=
  { cuts := [exC1_mc],
    captions := [exC2_cap],
    effects := [{ timestamp := "00:00:03", type := "zoom_in" }] }

/-- Witness for C7 on a concrete plan with removal, caption and effect
instructions all present. -/
theorem C7_merge_preserves_cut_invariant_witness :
    ((merge_instructions exC7_plan exC7_mi).cuts.all
      (fun c => strLe c.start_time c.end_time)) = true :=
  List.all_eq_true.mpr (fun c hc =>
    (C7_merge_preserves_cut_invariant exC7_plan exC7_mi (by decide)).1 c hc)

/-! ## Background-music selection (analyze.py lines 203-255) -/

def BGM_DIR : String := "/app/data/bgm"

/-- The `bgm_library` dict of analyze.py lines 206-226. -/
def bgm_library : List (String × List String) :=
  [("energetic",
    ["energetic_pro.mp3", "Monkeys_Spinning_Monkeys.mp3", "Fluffing_a_Duck.mp3",
     "Run_Amok.mp3", "Swing_Machine.mp3", "The_Builder.mp3", "Pixel_Peeker_Polka_faster.mp3"]),
   ("upbeat",
    ["upbeat_pro.mp3", "New_Friendly.mp3", "Carefree.mp3", "Sneaky_Snitch.mp3",
     "Scheming_Weasel_faster.mp3"]),
   ("calm",
    ["calm_pro.mp3", "Easy_Lemon.mp3", "Sheep_May_Safely_Graze.mp3",
     "Dreams_Become_Real.mp3", "Almost_Bliss.mp3", "Local_Forecast_Elevator.mp3"]),
   ("dramatic",
    ["dramatic_pro.mp3", "Volatile_Reaction.mp3", "The_Complex.mp3",
     "Hitman.mp3", "Day_of_Chaos.mp3", "Sneaky_Adventure.mp3"]),
   ("happy",
    ["happy_pro.mp3", "Carefree.mp3", "Fluffing_a_Duck.mp3", "Monkeys_Spinning_Monkeys.mp3"])]

/-- The `mood_category_map` dict of analyze.py lines 229-233. -/
def mood_category_map : List (String × String) :=
  [("exciting", "energetic"), ("fun", "energetic"), ("peaceful", "calm"),
   ("relaxing", "calm"), ("serious", "dramatic"), ("mysterious", "dramatic"),
   ("cheerful", "happy"), ("positive", "upbeat")]

/-- analyze.py lines 236-240: `category = mood_category_map.get(mood, mood)`,
then the substring fallback — only taken when `category` is not a key of
`bgm_library`. -/
def determine_category (mood : String) : String :=
  let category := (mood_category_map.lookup mood).getD mood
  if (bgm_library.lookup category).isSome then category
  else if subStr "calm" mood || subStr "quiet" mood then "calm"
  else if subStr "sad" mood || subStr "dark" mood then "dramatic"
  else "energetic"

/-- analyze.py lines 244-251.  `fileExists` models `os.path.exists`;
`pick` models `random.choice`, reduced to choosing an index. -/
def select_bgm (mood : String) (fileExists : String → Bool) (pick : List String → Nat) :
    String :=
  let category := determine_category mood
  let available_tracks := (bgm_library.lookup category).getD
    ((bgm_library.lookup "energetic").getD [])
  let valid_tracks := available_tracks.filter (fun t => fileExists (BGM_DIR ++ "/" ++ t))
  let valid_tracks := if valid_tracks.isEmpty then ["default_bgm.mp3"] else valid_tracks
  let bgm_filename := valid_tracks.getD (pick valid_tracks % valid_tracks.length) "default_bgm.mp3"
  BGM_DIR ++ "/" ++ bgm_filename

/-- Modelled from the spec's words (section 4.5 of the design): the
claimed substring fallback applied unconditionally to any mood not in
the mapping table. -/
def spec_fallback_category (mood : String) : String :=
  if subStr "calm" mood || subStr "quiet" mood then "calm"
  else if subStr "sad" mood || subStr "dark" mood then "dramatic"
  else "energetic"

theorem strAppend_ne_empty (a b : String) (h : a.data ≠ []) : a ++ b ≠ "" := by
  intro hc
  have h2 : a.data ++ b.data = [] := by
    have h3 : (a ++ b).data = ("" : String).data := by rw [hc]
    simpa using h3
  exact h (List.append_eq_nil.mp h2).1

/-- C3 counterexample: the mood "happy" is not a key of
`mood_category_map`, yet the code does not apply the substring fallback
to it (which would give "energetic"): "happy" is itself a key of
`bgm_library`, so the code keeps category "happy" and selects from the
"happy" track list. -/
theorem C3_fallback_counterexample :
    mood_category_map.lookup "happy" = none
    ∧ determine_category "happy" = "happy"
    ∧ spec_fallback_category "happy" = "energetic"
    ∧ determine_category "happy" ≠ spec_fallback_category "happy"
    ∧ select_bgm "happy" (fun _ => true) (fun _ => 0) = "/app/data/bgm/happy_pro.mp3" := by
  refine ⟨by decide, by decide, by decide, by decide, by decide⟩

/-- C3 amended: for every mood that is neither a key of the explicit
mapping table nor itself a category of the music library, the substring
fallback rules apply in the claimed fixed order; and for any such mood
the selection always returns a non-empty path, using the hard-coded
fallback filename when no candidate file exists. -/
theorem C3_bgm_fallback_amended (mood : String)
    (h1 : mood_category_map.lookup mood = none)
    (h2 : bgm_library.lookup mood = none) :
    determine_category mood = spec_fallback_category mood
    ∧ (∀ fileExists pick, select_bgm mood fileExists pick ≠ "")
    ∧ (∀ pick, select_bgm mood (fun _ => false) pick = BGM_DIR ++ "/" ++ "default_bgm.mp3") := by
  have hcat : determine_category mood = spec_fallback_category mood := by
    simp [determine_category, spec_fallback_category, h1, h2]
  refine ⟨hcat, ?_, ?_⟩
  · intro fileExists pick
    exact strAppend_ne_empty _ _ (by decide)
  · intro pick
    simp [select_bgm]

/-- Witness for the amended C3 at the mood "melancholic": not in the
table, not a library category, contains none of the fallback
substrings, so category "energetic"; with no files on disk the
hard-coded fallback is chosen. -/
theorem C3_bgm_fallback_amended_witness :
    determine_category "melancholic" = spec_fallback_category "melancholic"
    ∧ (∀ fileExists pick, select_bgm "melancholic" fileExists pick ≠ "")
    ∧ (∀ pick, select_bgm "melancholic" (fun _ => false) pick
        = BGM_DIR ++ "/" ++ "default_bgm.mp3") :=
  C3_bgm_fallback_amended "melancholic" (by decide) (by decide)

/-! ## The watch loop (`VideoHandler.on_created`, analyze.py lines 45-59) -/

structure FsEvent where
  is_directory : Bool
  src_path : String
deriving DecidableEq, Repr

/-- Python `str.lower()` (ASCII-relevant part). -/
def lowerStr (s : String) : String := ⟨s.data.map Char.toLower⟩

/-- Python `s.endswith(sfx)`. -/
def endsWithStr (s sfx : String) : Bool := prefOf sfx.data.reverse s.data.reverse

/-- The recognized video extensions of analyze.py line 52. -/
def video_exts : List String := [".mp4", ".mov", ".avi", ".mkv"]

/-- analyze.py line 52: `filename.lower().endswith(('.mp4', '.mov', '.avi', '.mkv'))`. -/
def isVideoName (filename : String) : Bool :=
  video_exts.any (fun e => endsWithStr (lowerStr filename) e)

/-- `os.path.basename` for POSIX paths. -/
def basename (p : String) : String :=
  ⟨(p.data.reverse.takeWhile (fun c => c != '/')).reverse⟩

inductive HandlerOutcome where
  | ignored : HandlerOutcome
  | processed : HandlerOutcome
  | caught (file_name error : String) : HandlerOutcome
deriving DecidableEq, Repr

/-- `VideoHandler.on_created` (analyze.py lines 45-59): directory
events are ignored, non-video filenames are ignored, and any exception
from `process_video` (modelled by `proc` returning `.error`) is caught
and logged with the filename and error. -/
def on_created (proc : String → String → Except String Unit) (ev : FsEvent) :
    HandlerOutcome :=
  if ev.is_directory then .ignored
  else
    let filepath := ev.src_path
    let filename := basename filepath
    if !(isVideoName filename) then .ignored
    else
      match proc filepath filename with
      | .ok _ => .processed
      | .error e => .caught filename e

/-- The watcher delivers events one at a time; the handler is run on
each in order. -/
def handleEvents (proc : String → String → Except String Unit) (evs : List FsEvent) :
    List HandlerOutcome :=
  evs.map (on_created proc)

/-- C8: directory events and files without a recognized video
extension trigger no processing; for recognized files a processing
error is caught (with filename and error) and never escapes, and
handling a batch of events decomposes per event, so one file's failure
cannot prevent handling of subsequent events. -/
theorem C8_watch_loop_dispatch (proc : String → String → Except String Unit) (ev : FsEvent) :
    (ev.is_directory = true → on_created proc ev = .ignored)
    ∧ (isVideoName (basename ev.src_path) = false → ev.is_directory = false →
        on_created proc ev = .ignored)
    ∧ (∀ e, ev.is_directory = false → isVideoName (basename ev.src_path) = true →
        proc ev.src_path (basename ev.src_path) = .error e →
        on_created proc ev = .caught (basename ev.src_path) e)
    ∧ (∀ evs1 evs2, handleEvents proc (evs1 ++ evs2)
        = handleEvents proc evs1 ++ handleEvents proc evs2) := by
  refine ⟨?_, ?_, ?_, ?_⟩
  · intro h; simp [on_created, h]
  · intro h hd; simp [on_created, hd, h]
  · intro e hd hv hp; simp [on_created, hd, hv, hp]
  · intro a b; simp [handleEvents]

def exC8_ev : FsEvent := { is_directory := false, src_path := "/app/data/raw/Clip.MP4" }

/-- Witness for C8: an upper-case `.MP4` file whose processing raises;
the error is caught together with the basename. -/
theorem C8_watch_loop_dispatch_witness :
    on_created (fun _ _ => .error "boom") exC8_ev
      = .caught (basename exC8_ev.src_path) "boom" :=
  (C8_watch_loop_dispatch (fun _ _ => .error "boom") exC8_ev).2.2.1 "boom" rfl (by decide) rfl

/-! ## Knowledge base and crawler (`trend_watcher/main.py`)

The SQLite tables become lists of rows (append-only in the code paths
modelled here).  The float-valued style fields are never computed with
by the code, so they are carried as integers.  External effects
(yt-dlp searches and downloads, file existence, SQLite errors) are
modelled by explicit outcome records; a Python exception that escapes
a statement is modelled by a raised-flag in the result. -/

structure StyleRow where
  genre : String
  cuts_per_min : Int
  avg_shot_duration : Int
  filter_usage : String
  transition_type : String
  caption_style : String
  bgm_mood : String
  se_tags : List String
  created_at : Nat
deriving DecidableEq, Repr

structure AssetRow where
  type : String
  name : String
  path : String
  tags : String
  source_url : String
deriving DecidableEq, Repr

structure SourceRow where
  video_id : String
  title : String
  genre : String
  view_count : Nat
deriving DecidableEq, Repr

structure DB where
  styles : List StyleRow
  assets : List AssetRow
  source_videos : List SourceRow
deriving DecidableEq, Repr

/-- One yt-dlp search entry, as read by the crawl loop. -/
structure Entry where
  id : String
  title : String
  webpage_url : Option String
  view_count : Nat
deriving DecidableEq, Repr

/-- The style JSON parsed by `analyze_video`. -/
structure StyleData where
  cuts_per_min : Int
  avg_shot_duration : Int
  filter_usage : String
  transition_type : String
  caption_style : String
  bgm_mood : String
  se_tags : List String
deriving DecidableEq, Repr

/-- The top search result seen by `download_asset`, when the search
produced one. -/
structure AssetFound where
  id : String
  title : String
  webpage_url : String
deriving DecidableEq, Repr

/-- Outcome of one `download_asset` call's external steps: `found` is
the single search entry (if any), `fails` models an exception somewhere
between the dedup check and the insert (the whole body is inside
`try/except`, so nothing propagates either way). -/
structure AssetQueryOutcome where
  found : Option AssetFound
  fails : Bool
deriving DecidableEq, Repr

/-- `download_asset` (main.py lines 133-180).  The dedup check at
lines 159-162 is `SELECT id FROM assets WHERE source_url = ?` — by URL
only, with no condition on the asset's kind. -/
def download_asset (query asset_type : String) (o : AssetQueryOutcome) (db : DB) : DB :=
  match o.found with
  | none => db
  | some f =>
    if db.assets.any (fun a => a.source_url == f.webpage_url) then db
    else if o.fails then db
    else
      { db with assets := db.assets ++
          [{ type := asset_type, name := f.title,
             path := "/app/data/" ++ asset_type ++ "/" ++ f.id,
             tags := query, source_url := f.webpage_url }] }

/-- The styles-row insert of main.py lines 250-263. -/
def mkStyleRow (genre : String) (now : Nat) (st : StyleData) : StyleRow :=
  { genre := genre, cuts_per_min := st.cuts_per_min,
    avg_shot_duration := st.avg_shot_duration, filter_usage := st.filter_usage,
    transition_type := st.transition_type, caption_style := st.caption_style,
    bgm_mood := st.bgm_mood, se_tags := st.se_tags, created_at := now }

/-- External outcomes for one iteration of the crawl loop.
`entry = none` models a falsy entry (skipped at line 211).  The
`...Raises` flags model exceptions raised by the corresponding
statement; `analysis` is the value returned by `analyze_video`, which
catches its own failures and returns `None` (modelled as `none`).
`fileExists` is the `os.path.exists` test after the sample download;
each `download_asset` call gets its outcome from `bgmOutcome` or
`seOutcomes` (keyed by tag). -/
structure EntryEnv where
  entry : Option Entry
  insertRaises : Bool
  downloadRaises : Bool
  fileExists : Bool
  analysis : Option StyleData
  styleInsertRaises : Bool
  removeRaises : Bool
  bgmOutcome : AssetQueryOutcome
  seOutcomes : String → AssetQueryOutcome

/-- The source_videos-row insert of main.py lines 225-229. -/
def mkSourceRow (genre : String) (e : Entry) : SourceRow :=
  { video_id := e.id, title := e.title, genre := genre, view_count := e.view_count }

/-- The asset-collection block of main.py lines 266-276: one
background-music search when the fingerprint's mood is non-empty, one
sound-effect search per tag except empty and "none" tags.  Each
`download_asset` call catches its own failures, so this phase never
raises. -/
def harvestAssets (st : StyleData) (env : EntryEnv) (db : DB) : DB :=
  let db3 := if st.bgm_mood != "" then
      download_asset ("No copyright music " ++ st.bgm_mood) "bgm" env.bgmOutcome db
    else db
  st.se_tags.foldl (fun d tag =>
      if tag != "" && tag != "none" then
        download_asset ("Sound effect " ++ tag) "se" (env.seOutcomes tag) d
      else d) db3

/-- The body of the `for entry in result['entries']` loop of main.py
lines 210-279, returning the updated state and whether an exception
escaped the iteration (there is no per-entry handler: an escaping
exception reaches the single `try/except` wrapping the whole crawl). -/
def processEntry (genre : String) (now : Nat) (env : EntryEnv) (db : DB) : DB × Bool :=
  match env.entry with
  | none => (db, false)
  | some e =>
    if db.source_videos.any (fun r => r.video_id == e.id) then (db, false)
    else if env.insertRaises then (db, true)
    else
      let db1 := { db with source_videos := db.source_videos ++ [mkSourceRow genre e] }
      match e.webpage_url with
      | none => (db1, false)
      | some _ =>
        if env.downloadRaises then (db1, true)
        else if !env.fileExists then (db1, false)
        else
          match env.analysis with
          | none => if env.removeRaises then (db1, true) else (db1, false)
          | some st =>
            if env.styleInsertRaises then (db1, true)
            else
              let db2 := { db1 with styles := db1.styles ++ [mkStyleRow genre now st] }
              let db4 := harvestAssets st env db2
              if env.removeRaises then (db4, true) else (db4, false)

/-- The crawl loop: entries are processed in order until one of them
raises, at which point the exception reaches the single top-level
handler and the invocation ends with the state reached so far. -/
def crawlGo (genre : String) (now : Nat) (envs : List EntryEnv) (db : DB) : DB :=
  match envs with
  | [] => db
  | env :: rest =>
    let r := processEntry genre now env db
    if r.2 then r.1 else crawlGo genre now rest r.1

/-- `crawl` (main.py lines 182-284).  `search = none` models a failing
(or entry-less) top-level search: the whole invocation aborts with the
knowledge base untouched. -/
def crawl (genre : String) (now : Nat) (search : Option (List EntryEnv)) (db : DB) : DB :=
  match search with
  | none => db
  | some envs => crawlGo genre now envs db

/-! ## Invariants of the knowledge base -/

def NoDupIds (db : DB) : Prop :=
  db.source_videos.Pairwise (fun a b => a.video_id ≠ b.video_id)

def NoDupUrls (db : DB) : Prop :=
  db.assets.Pairwise (fun a b => a.source_url ≠ b.source_url)

def hasId (db : DB) (id : String) : Prop := ∃ r ∈ db.source_videos, r.video_id = id

theorem download_asset_skips_dup (query asset_type : String) (o : AssetQueryOutcome)
    (db : DB) (f : AssetFound) (hf : o.found = some f)
    (hdup : ∃ a ∈ db.assets, a.source_url = f.webpage_url) :
    download_asset query asset_type o db = db := by
  obtain ⟨a, ha, hu⟩ := hdup
  have hany : db.assets.any (fun a => a.source_url == f.webpage_url) = true :=
    List.any_eq_true.mpr ⟨a, ha, by simp [hu]⟩
  simp [download_asset, hf, hany]

theorem download_asset_preserves_nodup_urls (query asset_type : String)
    (o : AssetQueryOutcome) (db : DB) (h : NoDupUrls db) :
    NoDupUrls (download_asset query asset_type o db) := by
  cases ho : o.found with
  | none => simpa [download_asset, ho] using h
  | some f =>
    by_cases hany : db.assets.any (fun a => a.source_url == f.webpage_url)
    · simpa [download_asset, ho, hany] using h
    · by_cases hfail : o.fails
      · simpa [download_asset, ho, hany, hfail] using h
      · have hnew : ∀ a ∈ db.assets, a.source_url ≠ f.webpage_url := by
          intro a ha heq
          exact hany (List.any_eq_true.mpr ⟨a, ha, by simp [heq]⟩)
        simp only [NoDupUrls, download_asset, ho, hany, Bool.false_eq_true, if_false,
          hfail, ite_false]
        rw [List.pairwise_append]
        refine ⟨h, by simp, ?_⟩
        intro a ha b hb
        simp at hb
        rw [hb]
        exact hnew a ha

theorem download_asset_source_videos (query asset_type : String) (o : AssetQueryOutcome)
    (db : DB) : (download_asset query asset_type o db).source_videos = db.source_videos := by
  cases ho : o.found with
  | none => simp [download_asset, ho]
  | some f =>
    by_cases hany : db.assets.any (fun a => a.source_url == f.webpage_url)
    · simp [download_asset, ho, hany]
    · by_cases hfail : o.fails <;> simp [download_asset, ho, hany, hfail]

theorem download_asset_styles (query asset_type : String) (o : AssetQueryOutcome)
    (db : DB) : (download_asset query asset_type o db).styles = db.styles := by
  cases ho : o.found with
  | none => simp [download_asset, ho]
  | some f =>
    by_cases hany : db.assets.any (fun a => a.source_url == f.webpage_url)
    · simp [download_asset, ho, hany]
    · by_cases hfail : o.fails <;> simp [download_asset, ho, hany, hfail]

theorem seFold_preserves_nodup_urls (tags : List String) (f : String → AssetQueryOutcome)
    (db : DB) (h : NoDupUrls db) :
    NoDupUrls (tags.foldl (fun d tag =>
      if tag != "" && tag != "none" then
        download_asset ("Sound effect " ++ tag) "se" (f tag) d
      else d) db) := by
  induction tags generalizing db with
  | nil => exact h
  | cons tag tags ih =>
    by_cases hc : tag != "" && tag != "none"
    · exact ih _ (by simpa [hc] using
        download_asset_preserves_nodup_urls ("Sound effect " ++ tag) "se" (f tag) db h)
    · simp only [List.foldl_cons, hc, Bool.false_eq_true, if_false]
      exact ih _ h

theorem seFold_source_videos (tags : List String) (f : String → AssetQueryOutcome)
    (db : DB) :
    (tags.foldl (fun d tag =>
      if tag != "" && tag != "none" then
        download_asset ("Sound effect " ++ tag) "se" (f tag) d
      else d) db).source_videos = db.source_videos := by
  induction tags generalizing db with
  | nil => rfl
  | cons tag tags ih =>
    by_cases hc : tag != "" && tag != "none"
    · simp only [List.foldl_cons, hc, if_true]
      rw [ih, download_asset_source_videos]
    · simp only [List.foldl_cons, hc, Bool.false_eq_true, if_false]
      exact ih _

theorem harvestAssets_source_videos (st : StyleData) (env : EntryEnv) (db : DB) :
    (harvestAssets st env db).source_videos = db.source_videos := by
  simp only [harvestAssets]
  rw [seFold_source_videos]
  by_cases hmood : st.bgm_mood != "" <;>
    simp [hmood, download_asset_source_videos]

theorem harvestAssets_preserves_nodup_urls (st : StyleData) (env : EntryEnv) (db : DB)
    (h : NoDupUrls db) : NoDupUrls (harvestAssets st env db) := by
  simp only [harvestAssets]
  apply seFold_preserves_nodup_urls
  by_cases hmood : st.bgm_mood != ""
  · simpa [hmood] using
      download_asset_preserves_nodup_urls ("No copyright music " ++ st.bgm_mood) "bgm"
        env.bgmOutcome db h
  · simpa [hmood] using h

def cleanEnv (env : EntryEnv) : Prop :=
  env.insertRaises = false ∧ env.downloadRaises = false
    ∧ env.styleInsertRaises = false ∧ env.removeRaises = false

theorem processEntry_no_raise (genre : String) (now : Nat) (env : EntryEnv) (db : DB)
    (hc : cleanEnv env) : (processEntry genre now env db).2 = false := by
  obtain ⟨h1, h2, h3, h4⟩ := hc
  cases henv : env.entry with
  | none => simp [processEntry, henv]
  | some e =>
    by_cases hdup : db.source_videos.any (fun r => r.video_id == e.id)
    · simp [processEntry, henv, hdup]
    · cases hurl : e.webpage_url with
      | none => simp [processEntry, henv, hdup, hurl, h1]
      | some u =>
        by_cases hfe : env.fileExists
        · cases hana : env.analysis with
          | none => simp [processEntry, henv, hdup, hurl, hfe, hana, h1, h2, h4]
          | some st => simp [processEntry, henv, hdup, hurl, hfe, hana, h1, h2, h3, h4]
        · simp [processEntry, henv, hdup, hurl, hfe, h1, h2]

theorem processEntry_source_videos_eq (genre : String) (now : Nat) (env : EntryEnv)
    (db : DB) (h1 : env.insertRaises = false) :
    (processEntry genre now env db).1.source_videos
      = (match env.entry with
         | none => db.source_videos
         | some e =>
           if db.source_videos.any (fun r => r.video_id == e.id) then db.source_videos
           else db.source_videos ++ [mkSourceRow genre e]) := by
  cases henv : env.entry with
  | none => simp [processEntry, henv]
  | some e =>
    by_cases hdup : db.source_videos.any (fun r => r.video_id == e.id)
    · simp [processEntry, henv, hdup]
    · cases hurl : e.webpage_url with
      | none => simp [processEntry, henv, hdup, hurl, h1]
      | some u =>
        by_cases h2 : env.downloadRaises
        · simp [processEntry, henv, hdup, hurl, h1, h2]
        · by_cases hfe : env.fileExists
          · cases hana : env.analysis with
            | none =>
              by_cases h4 : env.removeRaises <;>
                simp [processEntry, henv, hdup, hurl, h1, h2, hfe, hana, h4]
            | some st =>
              by_cases h3 : env.styleInsertRaises
              · simp [processEntry, henv, hdup, hurl, h1, h2, hfe, hana, h3]
              · by_cases h4 : env.removeRaises <;>
                  simp [processEntry, henv, hdup, hurl, h1, h2, hfe, hana, h3, h4,
                    harvestAssets_source_videos]
          · simp [processEntry, henv, hdup, hurl, h1, h2, hfe]

theorem processEntry_source_videos_none (genre : String) (now : Nat) (env : EntryEnv)
    (db : DB) (h1 : env.insertRaises = false) (henv : env.entry = none) :
    (processEntry genre now env db).1.source_videos = db.source_videos := by
  have heq := processEntry_source_videos_eq genre now env db h1
  rw [henv] at heq
  exact heq

theorem processEntry_source_videos_some (genre : String) (now : Nat) (env : EntryEnv)
    (db : DB) (e : Entry) (h1 : env.insertRaises = false) (henv : env.entry = some e) :
    (processEntry genre now env db).1.source_videos
      = (if db.source_videos.any (fun r => r.video_id == e.id) then db.source_videos
         else db.source_videos ++ [mkSourceRow genre e]) := by
  have heq := processEntry_source_videos_eq genre now env db h1
  rw [henv] at heq
  exact heq

theorem processEntry_fst_of_insertRaises (genre : String) (now : Nat) (env : EntryEnv)
    (db : DB) (h1 : env.insertRaises = true) :
    (processEntry genre now env db).1 = db := by
  cases henv : env.entry with
  | none => simp [processEntry, henv]
  | some e =>
    by_cases hdup : db.source_videos.any (fun r => r.video_id == e.id) <;>
      simp [processEntry, henv, hdup, h1]

theorem processEntry_preserves_nodup_ids (genre : String) (now : Nat) (env : EntryEnv)
    (db : DB) (h : NoDupIds db) : NoDupIds (processEntry genre now env db).1 := by
  by_cases h1 : env.insertRaises
  · rw [processEntry_fst_of_insertRaises genre now env db h1]
    exact h
  · have h1' : env.insertRaises = false := by simpa using h1
    show (processEntry genre now env db).1.source_videos.Pairwise _
    cases henv : env.entry with
    | none =>
      rw [processEntry_source_videos_none genre now env db h1' henv]
      exact h
    | some e =>
      rw [processEntry_source_videos_some genre now env db e h1' henv]
      by_cases hdup : db.source_videos.any (fun r => r.video_id == e.id)
      · rw [if_pos hdup]; exact h
      · rw [if_neg hdup]
        have hall : ∀ r ∈ db.source_videos, r.video_id ≠ e.id := by
          intro r hr heq
          exact hdup (List.any_eq_true.mpr ⟨r, hr, by simp [heq]⟩)
        rw [List.pairwise_append]
        refine ⟨h, by simp, ?_⟩
        intro a ha b hb
        simp at hb
        rw [hb]
        simpa [mkSourceRow] using hall a ha

theorem processEntry_preserves_nodup_urls (genre : String) (now : Nat) (env : EntryEnv)
    (db : DB) (h : NoDupUrls db) : NoDupUrls (processEntry genre now env db).1 := by
  cases henv : env.entry with
  | none => simpa [processEntry, henv] using h
  | some e =>
    by_cases hdup : db.source_videos.any (fun r => r.video_id == e.id)
    · simpa [processEntry, henv, hdup] using h
    · by_cases h1 : env.insertRaises
      · simpa [processEntry, henv, hdup, h1] using h
      · cases hurl : e.webpage_url with
        | none => simpa [processEntry, henv, hdup, h1, hurl] using h
        | some u =>
          by_cases h2 : env.downloadRaises
          · simpa [processEntry, henv, hdup, h1, hurl, h2] using h
          · by_cases hfe : env.fileExists
            · cases hana : env.analysis with
              | none =>
                by_cases h4 : env.removeRaises <;>
                  simpa [processEntry, henv, hdup, h1, hurl, h2, hfe, hana, h4] using h
              | some st =>
                by_cases h3 : env.styleInsertRaises
                · simpa [processEntry, henv, hdup, h1, hurl, h2, hfe, hana, h3] using h
                · by_cases h4 : env.removeRaises
                  · simp [processEntry, henv, hdup, h1, hurl, h2, hfe, hana, h3, h4]
                    exact harvestAssets_preserves_nodup_urls st env _ h
                  · simp [processEntry, henv, hdup, h1, hurl, h2, hfe, hana, h3, h4]
                    exact harvestAssets_preserves_nodup_urls st env _ h
            · simpa [processEntry, henv, hdup, h1, hurl, h2, hfe] using h

theorem processEntry_hasId (genre : String) (now : Nat) (env : EntryEnv) (db : DB)
    (h1 : env.insertRaises = false) (id : String) :
    hasId (processEntry genre now env db).1 id
      ↔ hasId db id ∨ ∃ e, env.entry = some e ∧ e.id = id := by
  cases henv : env.entry with
  | none =>
    rw [hasId, processEntry_source_videos_none genre now env db h1 henv]
    simp [hasId]
  | some e =>
    rw [hasId, processEntry_source_videos_some genre now env db e h1 henv]
    by_cases hdup : db.source_videos.any (fun r => r.video_id == e.id)
    · rw [if_pos hdup]
      have hin : hasId db e.id := by
        rcases List.any_eq_true.mp hdup with ⟨r, hr, hrid⟩
        exact ⟨r, hr, by simpa using hrid⟩
      constructor
      · exact fun h => Or.inl h
      · rintro (h | ⟨e', he', hid⟩)
        · exact h
        · injection he' with he''
          subst he''
          rw [← hid]
          exact hin
    · rw [if_neg hdup]
      constructor
      · rintro ⟨r, hr, hrid⟩
        rcases List.mem_append.mp hr with hr | hr
        · exact Or.inl ⟨r, hr, hrid⟩
        · right
          refine ⟨e, rfl, ?_⟩
          simp at hr
          rw [hr] at hrid
          simpa [mkSourceRow] using hrid
      · rintro (⟨r, hr, hrid⟩ | ⟨e', he', hid⟩)
        · exact ⟨r, List.mem_append.mpr (Or.inl hr), hrid⟩
        · injection he' with he''
          subst he''
          exact ⟨mkSourceRow genre e, List.mem_append.mpr (Or.inr (by simp)),
            by simpa [mkSourceRow] using hid⟩

theorem crawlGo_preserves_nodup (genre : String) (now : Nat) (envs : List EntryEnv)
    (db : DB) (h1 : NoDupIds db) (h2 : NoDupUrls db) :
    NoDupIds (crawlGo genre now envs db) ∧ NoDupUrls (crawlGo genre now envs db) := by
  induction envs generalizing db with
  | nil => exact ⟨h1, h2⟩
  | cons env rest ih =>
    have hi := processEntry_preserves_nodup_ids genre now env db h1
    have hu := processEntry_preserves_nodup_urls genre now env db h2
    by_cases hr : (processEntry genre now env db).2
    · simp only [crawlGo, hr, if_true]
      exact ⟨hi, hu⟩
    · simp only [crawlGo, hr, Bool.false_eq_true, if_false]
      exact ih _ hi hu

theorem crawlGo_hasId (genre : String) (now : Nat) (envs : List EntryEnv)
    (hc : ∀ env ∈ envs, cleanEnv env) (db : DB) (id : String) :
    hasId (crawlGo genre now envs db) id
      ↔ hasId db id ∨ ∃ env ∈ envs, ∃ e, env.entry = some e ∧ e.id = id := by
  induction envs generalizing db with
  | nil => simp [crawlGo]
  | cons env rest ih =>
    have hcl : cleanEnv env := hc env (by simp)
    have hrest : ∀ e ∈ rest, cleanEnv e := fun e he => hc e (by simp [he])
    have hr : (processEntry genre now env db).2 = false :=
      processEntry_no_raise genre now env db hcl
    rw [show crawlGo genre now (env :: rest) db
        = crawlGo genre now rest (processEntry genre now env db).1 by
      simp only [crawlGo, hr, Bool.false_eq_true, if_false]]
    rw [ih hrest, processEntry_hasId genre now env db hcl.1 id]
    constructor
    · rintro ((h | h) | h)
      · exact Or.inl h
      · exact Or.inr ⟨env, by simp, h⟩
      · rcases h with ⟨env', he', hex⟩
        exact Or.inr ⟨env', by simp [he'], hex⟩
    · rintro (h | ⟨env', he', hex⟩)
      · exact Or.inl (Or.inl h)
      · rcases List.mem_cons.mp he' with he' | he'
        · subst he'
          exact Or.inl (Or.inr hex)
        · exact Or.inr ⟨env', he', hex⟩

theorem crawl_preserves_nodup (genre : String) (now : Nat)
    (search : Option (List EntryEnv)) (db : DB) (h1 : NoDupIds db) (h2 : NoDupUrls db) :
    NoDupIds (crawl genre now search db) ∧ NoDupUrls (crawl genre now search db) := by
  cases search with
  | none => exact ⟨h1, h2⟩
  | some envs => exact crawlGo_preserves_nodup genre now envs db h1 h2

/-- One whole `crawl` invocation: its genre, the wall-clock stamp used
for inserted rows, and the search outcome. -/
structure RunSpec where
  genre : String
  now : Nat
  search : Option (List EntryEnv)

/-- Any number of successive crawl invocations against the same
knowledge base. -/
def runAll (runs : List RunSpec) (db : DB) : DB :=
  runs.foldl (fun d r => crawl r.genre r.now r.search d) db

theorem runAll_preserves_nodup (runs : List RunSpec) (db : DB)
    (h1 : NoDupIds db) (h2 : NoDupUrls db) :
    NoDupIds (runAll runs db) ∧ NoDupUrls (runAll runs db) := by
  induction runs generalizing db with
  | nil => exact ⟨h1, h2⟩
  | cons r rest ih =>
    have hr := crawl_preserves_nodup r.genre r.now r.search db h1 h2
    exact ih _ hr.1 hr.2

/-! ## Claims C4, C5, C9 about the crawler -/

/-- C9: `download_asset` deduplicates by source URL alone, ignoring
kind: when the top search result's URL is already stored under ANY
kind, nothing is inserted; consequently URL-distinctness of the assets
table is preserved, and in particular no URL is ever stored under two
different kinds. -/
theorem C9_asset_dedup_by_url_only (query asset_type : String) (o : AssetQueryOutcome)
    (db : DB) :
    (∀ f, o.found = some f → (∃ a ∈ db.assets, a.source_url = f.webpage_url) →
      download_asset query asset_type o db = db)
    ∧ (NoDupUrls db → NoDupUrls (download_asset query asset_type o db))
    ∧ (NoDupUrls db → (download_asset query asset_type o db).assets.Pairwise
        (fun a b => a.type ≠ b.type ∨ a.source_url ≠ b.source_url)) := by
  refine ⟨?_, ?_, ?_⟩
  · intro f hf hdup
    exact download_asset_skips_dup query asset_type o db f hf hdup
  · intro h
    exact download_asset_preserves_nodup_urls query asset_type o db h
  · intro h
    exact (download_asset_preserves_nodup_urls query asset_type o db h).imp
      (fun hne => Or.inr hne)

def exC9_db : DB :=
  { styles := [],
    assets := [{ type := "bgm", name := "track", path := "/app/data/bgm/u1",
                 tags := "No copyright music lofi", source_url := "https://yt/u1" }],
    source_videos := [] }

def exC9_outcome : AssetQueryOutcome :=
  { found := some { id := "u1", title := "track", webpage_url := "https://yt/u1" },
    fails := false }

/-- Witness for C9: the URL is already stored with kind "bgm"; a
search for kind "se" hitting the same URL inserts nothing. -/
theorem C9_asset_dedup_by_url_only_witness :
    download_asset "Sound effect pop" "se" exC9_outcome exC9_db = exC9_db :=
  (C9_asset_dedup_by_url_only "Sound effect pop" "se" exC9_outcome exC9_db).1
    { id := "u1", title := "track", webpage_url := "https://yt/u1" } rfl
    ⟨{ type := "bgm", name := "track", path := "/app/data/bgm/u1",
       tags := "No copyright music lofi", source_url := "https://yt/u1" },
     by simp [exC9_db], rfl⟩

def exCrawlOk : AssetQueryOutcome := { found := none, fails := false }

def exC4_env1 : EntryEnv :=
  { entry := some { id := "v1", title := "t1", webpage_url := some "https://yt/v1",
                    view_count := 10 },
    insertRaises := false, downloadRaises := false, fileExists := true,
    analysis := none, styleInsertRaises := false, removeRaises := true,
    bgmOutcome := exCrawlOk, seOutcomes := fun _ => exCrawlOk }

def exC4_env2 : EntryEnv :=
  { entry := some { id := "v2", title := "t2", webpage_url := some "https://yt/v2",
                    view_count := 20 },
    insertRaises := false, downloadRaises := false, fileExists := true,
    analysis := none, styleInsertRaises := false, removeRaises := false,
    bgmOutcome := exCrawlOk, seOutcomes := fun _ => exCrawlOk }

def exDB0 : DB := { styles := [], assets := [], source_videos := [] }

/-- C4 counterexample: the claim says a failure at any per-entry stage
(including cleanup) is logged and the crawler proceeds to the next
candidate.  In the code there is no per-entry failure boundary: here
the first entry's cleanup (`os.remove`) raises, the exception reaches
the single top-level handler, and the second candidate "v2" is never
recorded — while the same second entry alone is recorded fine. -/
theorem C4_crawl_abort_counterexample :
    (crawl "vlog" 0 (some [exC4_env1, exC4_env2]) exDB0).source_videos.map
        (fun r => r.video_id) = ["v1"]
    ∧ (crawl "vlog" 0 (some [exC4_env2]) exDB0).source_videos.map
        (fun r => r.video_id) = ["v2"] :=
  ⟨rfl, rfl⟩

/-- C4 amended: failures inside the analyze stage and inside asset
harvesting are caught locally, so an entry whose analysis or asset
downloads fail does not stop the crawl (first conjunct: with no raising
statement, an iteration never raises, whatever `analysis`,
`fileExists` or the asset outcomes are).  But an exception raised at
the record, sample-download, fingerprint-persistence or cleanup stages
aborts the whole invocation (third conjunct), and a top-level search
failure aborts it with the knowledge base untouched (fourth
conjunct). -/
theorem C4_crawl_failure_boundary_amended (genre : String) (now : Nat) :
    (∀ env db, cleanEnv env → (processEntry genre now env db).2 = false)
    ∧ (∀ env envs db, (processEntry genre now env db).2 = false →
        crawlGo genre now (env :: envs) db
          = crawlGo genre now envs (processEntry genre now env db).1)
    ∧ (∀ env envs db, (processEntry genre now env db).2 = true →
        crawlGo genre now (env :: envs) db = (processEntry genre now env db).1)
    ∧ (∀ db, crawl genre now none db = db) := by
  refine ⟨?_, ?_, ?_, fun db => rfl⟩
  · intro env db hc
    exact processEntry_no_raise genre now env db hc
  · intro env envs db hno
    simp only [crawlGo, hno, Bool.false_eq_true, if_false]
  · intro env envs db hyes
    simp only [crawlGo, hyes, if_true]

/-- Witness for the amended C4: a clean entry whose analysis failed
(`analysis = none`) does not raise. -/
theorem C4_crawl_failure_boundary_amended_witness :
    (processEntry "vlog" 0 exC4_env2 exDB0).2 = false :=
  (C4_crawl_failure_boundary_amended "vlog" 0).1 exC4_env2 exDB0 ⟨rfl, rfl, rfl, rfl⟩

/-- C5: over any number of crawl invocations, video-id distinctness of
`source_videos` and URL distinctness (hence kind+URL distinctness) of
`assets` are preserved; and in one invocation whose per-entry stages do
not raise, an id ends up recorded iff it was already present or appears
in the batch — so exactly the not-yet-present ids produce new rows. -/
theorem C5_crawl_dedup_invariant (db : DB) (h1 : NoDupIds db) (h2 : NoDupUrls db) :
    (∀ runs : List RunSpec,
      NoDupIds (runAll runs db) ∧ NoDupUrls (runAll runs db)
      ∧ (runAll runs db).assets.Pairwise
          (fun a b => a.type ≠ b.type ∨ a.source_url ≠ b.source_url))
    ∧ (∀ genre now envs, (∀ env ∈ envs, cleanEnv env) → ∀ id,
        hasId (crawl genre now (some envs) db) id
          ↔ hasId db id ∨ ∃ env ∈ envs, ∃ e, env.entry = some e ∧ e.id = id) := by
  constructor
  · intro runs
    have hp := runAll_preserves_nodup runs db h1 h2
    exact ⟨hp.1, hp.2, hp.2.imp (fun hne => Or.inr hne)⟩
  · intro genre now envs hc id
    exact crawlGo_hasId genre now envs hc db id

def exC5_db : DB :=
  { styles := [], assets := [],
    source_videos := [{ video_id := "v1", title := "t1", genre := "comedy",
                        view_count := 5 }] }

def exC5_envDup : EntryEnv :=
  { entry := some { id := "v1", title := "t1b", webpage_url := some "https://yt/v1",
                    view_count := 6 },
    insertRaises := false, downloadRaises := false, fileExists := true,
    analysis := none, styleInsertRaises := false, removeRaises := false,
    bgmOutcome := exCrawlOk, seOutcomes := fun _ => exCrawlOk }

def exC5_envNew : EntryEnv :=
  { entry := some { id := "v9", title := "t9", webpage_url := some "https://yt/v9",
                    view_count := 9 },
    insertRaises := false, downloadRaises := false, fileExists := true,
    analysis := none, styleInsertRaises := false, removeRaises := false,
    bgmOutcome := exCrawlOk, seOutcomes := fun _ => exCrawlOk }

def exC5_run : RunSpec :=
  { genre := "comedy", now := 0, search := some [exC5_envDup, exC5_envNew, exC5_envDup] }

/-- Witness for C5 at a batch overlapping the existing knowledge base
(Scenario C shape: duplicates of "v1" plus one new id). -/
theorem C5_crawl_dedup_invariant_witness :
    NoDupIds (runAll [exC5_run] exC5_db) ∧ NoDupUrls (runAll [exC5_run] exC5_db)
    ∧ (runAll [exC5_run] exC5_db).assets.Pairwise
        (fun a b => a.type ≠ b.type ∨ a.source_url ≠ b.source_url) :=
  (C5_crawl_dedup_invariant exC5_db (by simp [NoDupIds, exC5_db])
    (by simp [NoDupUrls, exC5_db])).1 [exC5_run]

/-! ## The style resolver (`fetch_latest_style`, analyze.py lines 275-306) -/

/-- `ORDER BY created_at DESC LIMIT 1` over the styles table: a row of
maximal creation timestamp (the first such row, matching a descending
sort that keeps earlier rows first among ties). -/
def latestStep (acc : Option StyleRow) (r : StyleRow) : Option StyleRow :=
  match acc with
  | none => some r
  | some b => if b.created_at < r.created_at then some r else some b

def latestStyle (rows : List StyleRow) : Option StyleRow := rows.foldl latestStep none

/-- The assets query of analyze.py line 295:
`SELECT path FROM assets WHERE type='bgm' AND tags LIKE '%mood%'`.
SQLite `LIKE` is case-insensitive for ASCII letters (while `=` keeps
the default binary collation), so the containment test lower-cases
both sides. -/
def styleAssetMatches (mood : String) (assets : List AssetRow) : List AssetRow :=
  assets.filter (fun a => a.type == "bgm" && subStr (lowerStr mood) (lowerStr a.tags))

/-- External conditions of one `fetch_latest_style` call: whether the
KB file exists, whether establishing the connection raises (this
happens OUTSIDE the `try` of analyze.py lines 285-306), whether the
queries inside the `try` raise, and the random index used for
`ORDER BY RANDOM() LIMIT 1`. -/
structure FetchEnv where
  dbExists : Bool
  connectRaises : Bool
  queryRaises : Bool
  pick : Nat
deriving DecidableEq, Repr

/-- `fetch_latest_style` (analyze.py lines 275-306).  The missing-file
check and the connection happen before the `try`; only query failures
are converted to `(None, None)` by the `except` clause. -/
def fetch_latest_style (env : FetchEnv) (kb : DB) :
    Except Unit (Option StyleRow × Option String) :=
  if !env.dbExists then .ok (none, none)
  else if env.connectRaises then .error ()
  else if env.queryRaises then .ok (none, none)
  else
    match latestStyle kb.styles with
    | none => .ok (none, none)
    | some st =>
      if st.bgm_mood != "" then
        let ms := styleAssetMatches st.bgm_mood kb.assets
        .ok (some st, (ms.get? (env.pick % ms.length)).map (fun a => a.path))
      else .ok (some st, none)

theorem latestStyle_foldl_spec (rows : List StyleRow) (b : StyleRow) :
    ∃ st, rows.foldl latestStep (some b) = some st
      ∧ (st = b ∨ st ∈ rows)
      ∧ b.created_at ≤ st.created_at
      ∧ ∀ r ∈ rows, r.created_at ≤ st.created_at := by
  induction rows generalizing b with
  | nil => exact ⟨b, rfl, Or.inl rfl, le_refl _, by simp⟩
  | cons r rows ih =>
    by_cases hlt : b.created_at < r.created_at
    · obtain ⟨st, hres, hmem, hle, hall⟩ := ih r
      refine ⟨st, ?_, ?_, ?_, ?_⟩
      · simpa [latestStep, hlt] using hres
      · right
        rcases hmem with h | h
        · simp [h]
        · simp [h]
      · exact le_of_lt (lt_of_lt_of_le hlt hle)
      · intro x hx
        rcases List.mem_cons.mp hx with h | h
        · rw [h]; exact hle
        · exact hall x h
    · obtain ⟨st, hres, hmem, hle, hall⟩ := ih b
      refine ⟨st, ?_, ?_, hle, ?_⟩
      · simpa [latestStep, hlt] using hres
      · rcases hmem with h | h
        · exact Or.inl h
        · exact Or.inr (by simp [h])
      · intro x hx
        rcases List.mem_cons.mp hx with h | h
        · rw [h]
          exact le_trans (le_of_not_lt hlt) hle
        · exact hall x h

theorem latestStyle_mem_max (rows : List StyleRow) (st : StyleRow)
    (h : latestStyle rows = some st) :
    st ∈ rows ∧ ∀ r ∈ rows, r.created_at ≤ st.created_at := by
  cases rows with
  | nil => simp [latestStyle] at h
  | cons r rs =>
    obtain ⟨st', hres, hmem, hle, hall⟩ := latestStyle_foldl_spec rs r
    have hh : rs.foldl latestStep (some r) = some st := h
    rw [hres] at hh
    injection hh with hh
    subst hh
    constructor
    · rcases hmem with h' | h'
      · simp [h']
      · simp [h']
    · intro x hx
      rcases List.mem_cons.mp hx with h' | h'
      · rw [h']; exact hle
      · exact hall x h'

theorem latestStyle_of_ne_nil (rows : List StyleRow) (hne : rows ≠ []) :
    ∃ st, latestStyle rows = some st := by
  cases rows with
  | nil => exact absurd rfl hne
  | cons r rs =>
    obtain ⟨st, hres, _, _, _⟩ := latestStyle_foldl_spec rs r
    exact ⟨st, hres⟩

/-! ## Claim C6 about the style resolver -/

/-- C6 counterexample: the claim says the resolver never raises and
returns (absent, absent) on ANY knowledge-base access failure.  But
`sqlite3.connect` (and the cursor setup) sit outside the `try`: when
establishing the connection to an existing KB file fails, the
exception propagates out of `fetch_latest_style`. -/
theorem C6_fetch_style_raises_counterexample :
    fetch_latest_style
      { dbExists := true, connectRaises := true, queryRaises := false, pick := 0 }
      { styles := [], assets := [], source_videos := [] } = .error () := rfl

/-- C6 amended: when establishing the connection does not raise, the
resolver never raises; it returns (absent, absent) when the KB file
does not exist or a query inside the `try` fails; otherwise it returns
the style row of maximal creation timestamp together with (when that
row's bgm mood is non-empty) the path of one "bgm"-kind asset whose
tag string contains the mood, or absent when the mood is empty or no
asset matches. -/
theorem C6_fetch_latest_style_amended (env : FetchEnv) (kb : DB)
    (hc : env.connectRaises = false) :
    (∃ v, fetch_latest_style env kb = .ok v)
    ∧ (env.dbExists = false → fetch_latest_style env kb = .ok (none, none))
    ∧ (env.queryRaises = true → fetch_latest_style env kb = .ok (none, none))
    ∧ (env.dbExists = true → env.queryRaises = false →
        ((kb.styles = [] → fetch_latest_style env kb = .ok (none, none))
        ∧ (kb.styles ≠ [] → ∃ st p, fetch_latest_style env kb = .ok (some st, p))
        ∧ (∀ st p, fetch_latest_style env kb = .ok (some st, p) →
            st ∈ kb.styles ∧ (∀ r ∈ kb.styles, r.created_at ≤ st.created_at)
            ∧ (st.bgm_mood = "" → p = none)
            ∧ (∀ path, p = some path → ∃ a ∈ kb.assets,
                a.type = "bgm" ∧ subStr (lowerStr st.bgm_mood) (lowerStr a.tags) = true
                  ∧ a.path = path)
            ∧ (styleAssetMatches st.bgm_mood kb.assets = [] → p = none)
            ∧ (st.bgm_mood ≠ "" →
                (∃ a ∈ kb.assets, a.type = "bgm"
                  ∧ subStr (lowerStr st.bgm_mood) (lowerStr a.tags) = true) →
                ∃ path, p = some path)))) := by
  by_cases hex : env.dbExists
  · by_cases hq : env.queryRaises
    · refine ⟨⟨(none, none), ?_⟩, by intro h; rw [h] at hex; exact absurd hex (by simp),
        fun _ => ?_, fun _ hq' => absurd hq (by simp [hq'])⟩ <;>
        simp [fetch_latest_style, hex, hc, hq]
    · have hbase : fetch_latest_style env kb
          = (match latestStyle kb.styles with
             | none => .ok (none, none)
             | some st =>
               if st.bgm_mood != "" then
                 let ms := styleAssetMatches st.bgm_mood kb.assets
                 .ok (some st, (ms.get? (env.pick % ms.length)).map (fun a => a.path))
               else .ok (some st, none)) := by
        simp [fetch_latest_style, hex, hc, hq]
      refine ⟨?_, by intro h; rw [h] at hex; exact absurd hex (by simp),
        by intro h; exact absurd h (by simp [hq]), fun _ _ => ?_⟩
      · rw [hbase]
        cases hls : latestStyle kb.styles with
        | none => exact ⟨(none, none), rfl⟩
        | some st =>
          by_cases hmood : st.bgm_mood != "" <;> simp [hmood]
      · refine ⟨?_, ?_, ?_⟩
        · intro hnil
          rw [hbase, show latestStyle kb.styles = none by rw [hnil]; rfl]
        · intro hne
          obtain ⟨st, hls⟩ := latestStyle_of_ne_nil kb.styles hne
          rw [hbase, hls]
          by_cases hmood : st.bgm_mood != "" <;> simp [hmood]
        · intro st p heq
          rw [hbase] at heq
          cases hls : latestStyle kb.styles with
          | none => rw [hls] at heq; simp at heq
          | some st' =>
            rw [hls] at heq
            have hmm := latestStyle_mem_max kb.styles st' hls
            by_cases hmood : st'.bgm_mood != ""
            · simp only [hmood, if_true, Except.ok.injEq, Prod.mk.injEq,
                Option.some.injEq] at heq
              obtain ⟨hst, hp⟩ := heq
              subst hst
              refine ⟨hmm.1, hmm.2, ?_, ?_, ?_, ?_⟩
              · intro hempty
                exact absurd hempty (by simpa using hmood)
              · intro path hpath
                rw [← hp] at hpath
                rcases Option.map_eq_some'.mp hpath with ⟨a, hget, hpa⟩
                have hamem : a ∈ styleAssetMatches st'.bgm_mood kb.assets :=
                  List.get?_mem hget
                rcases List.mem_filter.mp hamem with ⟨hain, hprop⟩
                have hprop' : a.type = "bgm"
                    ∧ subStr (lowerStr st'.bgm_mood) (lowerStr a.tags) = true := by
                  simpa using hprop
                exact ⟨a, hain, hprop'.1, hprop'.2, hpa⟩
              · intro hnil
                rw [← hp, hnil]
                rfl
              · intro _ hex'
                obtain ⟨a, ha, hta, hsa⟩ := hex'
                have hamem : a ∈ styleAssetMatches st'.bgm_mood kb.assets :=
                  List.mem_filter.mpr ⟨ha, by simp [hta, hsa]⟩
                have hlen : 0 < (styleAssetMatches st'.bgm_mood kb.assets).length :=
                  List.length_pos.mpr (List.ne_nil_of_mem hamem)
                have hlt : env.pick % (styleAssetMatches st'.bgm_mood kb.assets).length
                    < (styleAssetMatches st'.bgm_mood kb.assets).length :=
                  Nat.mod_lt _ hlen
                refine ⟨((styleAssetMatches st'.bgm_mood kb.assets).get
                    ⟨env.pick % (styleAssetMatches st'.bgm_mood kb.assets).length,
                      hlt⟩).path, ?_⟩
                rw [← hp, List.get?_eq_get hlt]
                rfl
            · simp only [hmood, Bool.false_eq_true, if_false, Except.ok.injEq,
                Prod.mk.injEq, Option.some.injEq] at heq
              obtain ⟨hst, hp⟩ := heq
              subst hst
              refine ⟨hmm.1, hmm.2, fun _ => hp.symm, ?_, fun _ => hp.symm,
                fun hne _ => absurd (by simpa using hmood) hne⟩
              intro path hpath
              rw [← hp] at hpath
              exact absurd hpath (by simp)
  · have hres : fetch_latest_style env kb = .ok (none, none) := by
      simp [fetch_latest_style, hex]
    refine ⟨⟨(none, none), hres⟩, fun _ => hres, fun _ => hres, ?_⟩
    intro h
    rw [h] at hex
    exact absurd hex (by simp)

def exC6_style1 : StyleRow :=
  { genre := "vlog", cuts_per_min := 12, avg_shot_duration := 5,
    filter_usage := "none", transition_type := "cut", caption_style := "minimal",
    bgm_mood := "lofi", se_tags := ["pop"], created_at := 1 }

def exC6_style2 : StyleRow :=
  { genre := "vlog", cuts_per_min := 20, avg_shot_duration := 3,
    filter_usage := "none", transition_type := "fade", caption_style := "heavy",
    bgm_mood := "energetic", se_tags := ["whoosh"], created_at := 2 }

def exC6_kb : DB :=
  { styles := [exC6_style1, exC6_style2],
    assets := [{ type := "bgm", name := "track", path := "/app/data/bgm/u1",
                 tags := "No copyright music energetic", source_url := "https://yt/u1" }],
    source_videos := [] }

/-- Witness for the amended C6: on a concrete two-fingerprint KB whose
latest fingerprint has the non-empty mood "energetic" and whose assets
hold one matching "bgm" row, the resolver returns that fingerprint
together with some asset path (the positive half of the claim). -/
theorem C6_fetch_latest_style_amended_witness :
    ∃ path, fetch_latest_style
      { dbExists := true, connectRaises := false, queryRaises := false, pick := 0 }
      exC6_kb = .ok (some exC6_style2, some path) := by
  have hcomp : fetch_latest_style
      { dbExists := true, connectRaises := false, queryRaises := false, pick := 0 }
      exC6_kb = .ok (some exC6_style2, some "/app/data/bgm/u1") := by rfl
  obtain ⟨path, hp⟩ :=
    (((C6_fetch_latest_style_amended
        { dbExists := true, connectRaises := false, queryRaises := false, pick := 0 }
        exC6_kb rfl).2.2.2 rfl rfl).2.2 exC6_style2 (some "/app/data/bgm/u1")
      hcomp).2.2.2.2.2 (by decide)
      ⟨{ type := "bgm", name := "track", path := "/app/data/bgm/u1",
         tags := "No copyright music energetic", source_url := "https://yt/u1" },
       by simp [exC6_kb], rfl, by decide⟩
  exact ⟨path, hp ▸ hcomp⟩

/-! ## Claim C10: string comparison of zero-padded HH:MM:SS timestamps

`merge_instructions` compares timestamps as Python strings.  For
zero-padded `HH:MM:SS` clock times the lexicographic order coincides
with chronological order; `ClockTime`/`render` make that precise. -/

/-- The ASCII digit character of `d` (for `d ≤ 9`). -/
def dchar (d : Nat) : Char := Char.ofNat (48 + d)

/-- Zero-padded two-digit rendering of `n ≤ 99`. -/
def two (n : Nat) : List Char := [dchar (n / 10), dchar (n % 10)]

structure ClockTime where
  h : Nat
  m : Nat
  s : Nat
deriving DecidableEq, Repr

/-- The zero-padded `HH:MM:SS` string denoting a clock time. -/
def render (t : ClockTime) : String :=
  ⟨two t.h ++ ':' :: (two t.m ++ ':' :: two t.s)⟩

/-- The number of seconds denoted by a clock time. -/
def toSecs (t : ClockTime) : Nat := 3600 * t.h + 60 * t.m + t.s

/-- Two-digit fields with in-range minutes and seconds. -/
def ValidTime (t : ClockTime) : Prop := t.h ≤ 99 ∧ t.m ≤ 59 ∧ t.s ≤ 59

theorem dchar_lt_iff (a b : Nat) (ha : a ≤ 9) (hb : b ≤ 9) :
    dchar a < dchar b ↔ a < b := by
  interval_cases a <;> interval_cases b <;> decide

theorem charsLe_cons (a b : Char) (as bs : List Char) :
    charsLe (a :: as) (b :: bs)
      = if a < b then true else if b < a then false else charsLe as bs := rfl

theorem charsLe_cons_same (c : Char) (as bs : List Char) :
    charsLe (c :: as) (c :: bs) = charsLe as bs := by
  rw [charsLe_cons, if_neg (lt_irrefl c), if_neg (lt_irrefl c)]

theorem charsLe_two_append (x y : Nat) (hx : x ≤ 99) (hy : y ≤ 99)
    (as bs : List Char) :
    charsLe (two x ++ as) (two y ++ bs)
      = if x < y then true else if y < x then false else charsLe as bs := by
  have hx1 : x / 10 ≤ 9 := by omega
  have hy1 : y / 10 ≤ 9 := by omega
  have hx2 : x % 10 ≤ 9 := by omega
  have hy2 : y % 10 ≤ 9 := by omega
  show charsLe (dchar (x / 10) :: dchar (x % 10) :: as)
      (dchar (y / 10) :: dchar (y % 10) :: bs) = _
  rw [charsLe_cons]
  by_cases h1 : x / 10 < y / 10
  · rw [if_pos ((dchar_lt_iff _ _ hx1 hy1).mpr h1), if_pos (show x < y by omega)]
  · rw [if_neg (fun hc => h1 ((dchar_lt_iff _ _ hx1 hy1).mp hc))]
    by_cases h2 : y / 10 < x / 10
    · rw [if_pos ((dchar_lt_iff _ _ hy1 hx1).mpr h2), if_neg (show ¬x < y by omega),
        if_pos (show y < x by omega)]
    · rw [if_neg (fun hc => h2 ((dchar_lt_iff _ _ hy1 hx1).mp hc)), charsLe_cons]
      by_cases h3 : x % 10 < y % 10
      · rw [if_pos ((dchar_lt_iff _ _ hx2 hy2).mpr h3), if_pos (show x < y by omega)]
      · rw [if_neg (fun hc => h3 ((dchar_lt_iff _ _ hx2 hy2).mp hc))]
        by_cases h4 : y % 10 < x % 10
        · rw [if_pos ((dchar_lt_iff _ _ hy2 hx2).mpr h4), if_neg (show ¬x < y by omega),
            if_pos (show y < x by omega)]
        · rw [if_neg (fun hc => h4 ((dchar_lt_iff _ _ hy2 hx2).mp hc)),
            if_neg (show ¬x < y by omega), if_neg (show ¬y < x by omega)]

theorem charsLe_two (x y : Nat) (hx : x ≤ 99) (hy : y ≤ 99) :
    charsLe (two x) (two y)
      = if x < y then true else if y < x then false else true := by
  have h := charsLe_two_append x y hx hy [] []
  rw [List.append_nil, List.append_nil] at h
  rw [h]
  rfl

theorem strLe_render_iff (t1 t2 : ClockTime) (h1 : ValidTime t1) (h2 : ValidTime t2) :
    strLe (render t1) (render t2) = true ↔ toSecs t1 ≤ toSecs t2 := by
  obtain ⟨hh1, hm1, hs1⟩ := h1
  obtain ⟨hh2, hm2, hs2⟩ := h2
  simp only [toSecs]
  show charsLe (two t1.h ++ ':' :: (two t1.m ++ ':' :: two t1.s))
      (two t2.h ++ ':' :: (two t2.m ++ ':' :: two t2.s)) = true ↔ _
  rw [charsLe_two_append t1.h t2.h hh1 hh2]
  by_cases hA : t1.h < t2.h
  · rw [if_pos hA]
    constructor
    · intro _; omega
    · intro _; rfl
  · rw [if_neg hA]
    by_cases hB : t2.h < t1.h
    · rw [if_pos hB]
      constructor
      · intro hfalse
        exact absurd hfalse (by simp)
      · intro hle
        omega
    · rw [if_neg hB, charsLe_cons_same,
        charsLe_two_append t1.m t2.m (by omega) (by omega)]
      by_cases hC : t1.m < t2.m
      · rw [if_pos hC]
        constructor
        · intro _; omega
        · intro _; rfl
      · rw [if_neg hC]
        by_cases hD : t2.m < t1.m
        · rw [if_pos hD]
          constructor
          · intro hfalse
            exact absurd hfalse (by simp)
          · intro hle
            omega
        · rw [if_neg hD, charsLe_cons_same,
            charsLe_two t1.s t2.s (by omega) (by omega)]
          by_cases hE : t1.s < t2.s
          · rw [if_pos hE]
            constructor
            · intro _; omega
            · intro _; rfl
          · rw [if_neg hE]
            by_cases hF : t2.s < t1.s
            · rw [if_pos hF]
              constructor
              · intro hfalse
                exact absurd hfalse (by simp)
              · intro hle
                omega
            · rw [if_neg hF]
              constructor
              · intro _; omega
              · intro _; rfl

/-- A caption-less cut whose boundaries are rendered clock times. -/
def renderCut (a b : ClockTime) : Cut :=
  { start_time := render a, end_time := render b, caption := none
    caption_style := none, rest := [] }

/-- C10: the merge compares cut boundaries and instruction timestamps
as strings; on zero-padded `HH:MM:SS` strings this lexicographic
comparison coincides with comparing the denoted clock times, so the
containment tests for cut removal (`inRemovalRange`) and caption
injection (`cutContainsTs`) are chronologically correct under that
precondition. -/
theorem C10_timestamp_lex_chronological (t1 t2 t3 t4 : ClockTime)
    (h1 : ValidTime t1) (h2 : ValidTime t2) (h3 : ValidTime t3) (h4 : ValidTime t4) :
    (strLe (render t1) (render t2) = true ↔ toSecs t1 ≤ toSecs t2)
    ∧ (inRemovalRange { action := "remove", start := render t1, «end» := render t4 }
         (renderCut t2 t3) = true
        ↔ (toSecs t1 ≤ toSecs t2 ∧ toSecs t3 ≤ toSecs t4))
    ∧ (cutContainsTs (renderCut t1 t2) (render t3) = true
        ↔ (toSecs t1 ≤ toSecs t3 ∧ toSecs t3 ≤ toSecs t2)) := by
  refine ⟨strLe_render_iff t1 t2 h1 h2, ?_, ?_⟩
  · constructor
    · intro h
      have h' : strLe (render t1) (render t2) = true
          ∧ strLe (render t3) (render t4) = true := by
        simpa [inRemovalRange, renderCut] using h
      exact ⟨(strLe_render_iff t1 t2 h1 h2).mp h'.1,
        (strLe_render_iff t3 t4 h3 h4).mp h'.2⟩
    · intro h
      have ha := (strLe_render_iff t1 t2 h1 h2).mpr h.1
      have hb := (strLe_render_iff t3 t4 h3 h4).mpr h.2
      simp [inRemovalRange, renderCut, ha, hb]
  · constructor
    · intro h
      have h' : strLe (render t1) (render t3) = true
          ∧ strLe (render t3) (render t2) = true := by
        simpa [cutContainsTs, renderCut] using h
      exact ⟨(strLe_render_iff t1 t3 h1 h3).mp h'.1,
        (strLe_render_iff t3 t2 h3 h2).mp h'.2⟩
    · intro h
      have ha := (strLe_render_iff t1 t3 h1 h3).mpr h.1
      have hb := (strLe_render_iff t3 t2 h3 h2).mpr h.2
      simp [cutContainsTs, renderCut, ha, hb]

/-- Witness for C10 at the spec's Scenario B boundary times
(00:00:10, 00:00:12, 00:00:18, 00:00:20). -/
theorem C10_timestamp_lex_chronological_witness :
    strLe (render ⟨0, 0, 10⟩) (render ⟨0, 0, 12⟩) = true
      ↔ toSecs ⟨0, 0, 10⟩ ≤ toSecs ⟨0, 0, 12⟩ :=
  (C10_timestamp_lex_chronological ⟨0, 0, 10⟩ ⟨0, 0, 12⟩ ⟨0, 0, 18⟩ ⟨0, 0, 20⟩
    ⟨by decide, by decide, by decide⟩ ⟨by decide, by decide, by decide⟩
    ⟨by decide, by decide, by decide⟩ ⟨by decide, by decide, by decide⟩).1
